import Mathlib

/-!
Verification development for the CHIP-8 virtual machine in `pkg/vm` of
JoshCooperr/chip8.  The operative implementation (the one compiled together
with `cmd/main.go` and `pkg/display`) is the file modelled here as
`Chip8.executeCycle` / `Chip8.LoadROM`; the repository also carries a stale
divergent draft of the same interpreter, whose operand decoder is modelled
separately as `Chip8.decodeXDraft` / `Chip8.decodeYDraft`.

Machine integers are modelled as `Nat` with explicit `% 2^w` where Go's
`uint8` / `uint16` arithmetic can wrap.  Go's fixed-size arrays
(`[4096]byte`, `[16]uint16`, `[16]uint8`, `[64][32]byte`) are modelled as
total functions over `Nat` indexes together with the constant bounds check
Go performs on every indexing expression; an out-of-range index panics in
Go, which is modelled by `Option`: a `none` result of `executeCycle` or
`LoadROM` corresponds to a runtime panic of the Go program.
-/

set_option maxRecDepth 100000

namespace Chip8

/-- Machine state: the fields of `type VM struct` in `pkg/vm` (the `display`
handle, an external collaborator, carries no interpreter state and is
omitted).  `memory` is the `[4096]byte` RAM, `stack` the `[16]uint16` call
stack, `vars` the `[16]uint8` register file `variables`, and `pixels` the
`[64][32]byte` buffer, indexed as `pixels x y`. -/
structure VM where
  opcode : Nat
  memory : Nat → Nat
  pc : Nat
  index : Nat
  stack : Nat → Nat
  sp : Nat
  delayTimer : Nat
  soundTimer : Nat
  vars : Nat → Nat
  vf : Nat
  pixels : Nat → Nat → Nat

/-- Read `vm.memory[i]`: Go bounds-checks against the array length 4096 and
panics (`none`) out of range. -/
def memRead (m : Nat → Nat) (i : Nat) : Option Nat :=
  if i < 4096 then some (m i) else none

/-- Write `vm.memory[i] = v` with Go's bounds check against 4096. -/
def memWrite (m : Nat → Nat) (i v : Nat) : Option (Nat → Nat) :=
  if i < 4096 then some (fun j => if j = i then v else m j) else none

/-- Read a cell of a 16-element array (`variables` or `stack`). -/
def regRead (f : Nat → Nat) (i : Nat) : Option Nat :=
  if i < 16 then some (f i) else none

/-- Write a cell of a 16-element array (`variables` or `stack`). -/
def regWrite (f : Nat → Nat) (i v : Nat) : Option (Nat → Nat) :=
  if i < 16 then some (fun j => if j = i then v else f j) else none

/-- Operand nibble `x` of the operative decoder:
`x := vm.opcode & 0x0F00 >> 8` (2nd nibble, register index). -/
def decodeX (op : Nat) : Nat := (op &&& 0x0F00) >>> 8

/-- Operand nibble `y` of the operative decoder:
`y := vm.opcode & 0x00F0 >> 4` (3rd nibble, register index). -/
def decodeY (op : Nat) : Nat := (op &&& 0x00F0) >>> 4

/-- Operand field `x` as computed by the stale draft interpreter:
`x := vm.opcode & 0x0F00` — the draft omits the `>> 8` shift. -/
def decodeXDraft (op : Nat) : Nat := op &&& 0x0F00

/-- Operand field `y` as computed by the stale draft interpreter:
`y := vm.opcode & 0x00F0` — the draft omits the `>> 4` shift. -/
def decodeYDraft (op : Nat) : Nat := op &&& 0x00F0

/-- Read pixel `px[c][r]`: Go bounds-checks `c` against 64 and `r`
against 32, panicking (`none`) out of range. -/
def getPix (px : Nat → Nat → Nat) (c r : Nat) : Option Nat :=
  if c < 64 then if r < 32 then some (px c r) else none else none

/-- Write pixel `px[c][r] := v`; in the interpreter this is only reached
after a successful `getPix` of the same cell, so the unchecked update
agrees with Go. -/
def setPix (px : Nat → Nat → Nat) (c r v : Nat) : Nat → Nat → Nat :=
  fun c2 r2 => if c2 = c ∧ r2 = r then v else px c2 r2

/-- Inner loop of the `Dxyn` arm: `for x := 0; x < 8; x++` over the bits of
one sprite byte `sr`.  The pixel column is `xcoord+uint8(x)` (`uint8`
addition, hence `% 256`); if the sprite bit is set, the pixel is read
(turning the flag accumulator to 1 on collision) and then XOR-ed with
`0xFF`. -/
def drawBitsLoop (xc row sr : Nat) : List Nat → (Nat → Nat → Nat) → Nat →
    Option ((Nat → Nat → Nat) × Nat)
  | [], px, vf => some (px, vf)
  | bx :: rest, px, vf =>
    if sr &&& (0x80 >>> bx) = 0 then
      drawBitsLoop xc row sr rest px vf
    else
      match getPix px ((xc + bx) % 256) row with
      | none => none
      | some old =>
        drawBitsLoop xc row sr rest
          (setPix px ((xc + bx) % 256) row (old ^^^ 0xFF))
          (if old = 0xFF then 1 else vf)

/-- Outer loop of the `Dxyn` arm: `for y := uint16(0); y < n; y++`, reading
the sprite byte `vm.memory[vm.index+y]` (`uint16` addition) for each row.
The pixel row index is `ycoord+uint8(y)` (`uint8` arithmetic). -/
def drawRowsLoop (mem : Nat → Nat) (idx xc yc : Nat) :
    List Nat → (Nat → Nat → Nat) → Nat → Option ((Nat → Nat → Nat) × Nat)
  | [], px, vf => some (px, vf)
  | ry :: rest, px, vf =>
    match memRead mem ((idx + ry) % 65536) with
    | none => none
    | some sr =>
      match drawBitsLoop xc ((yc + ry % 256) % 256) sr (List.range 8) px vf with
      | none => none
      | some st => drawRowsLoop mem idx xc yc rest st.1 st.2

/-- The `0xD000` (sprite draw) arm of `executeCycle`: starting coordinates
`vm.variables[x] & 63` and `vm.variables[y] & 31`, flag register zeroed
(`vm.vf = 0`) before the row loop.  The trailing `vm.display.Render` call
hands a copy of the buffer to the external display and changes no VM state. -/
def execDraw (vm : VM) (x y n : Nat) : Option VM :=
  match regRead vm.vars x with
  | none => none
  | some vx =>
    match regRead vm.vars y with
    | none => none
    | some vy =>
      match drawRowsLoop vm.memory vm.index (vx &&& 63) (vy &&& 31)
          (List.range n) vm.pixels 0 with
      | none => none
      | some st => some { vm with pixels := st.1, vf := st.2 }

/-- The `Fx55` loop: `for i := 0; i < len(vm.variables); i++ {
vm.memory[vm.index+uint16(i)] = vm.variables[i] }` — note that it copies
every one of the 16 registers, not only `V0..Vx`. -/
def storeRegsLoop (vars : Nat → Nat) (idx : Nat) :
    (Nat → Nat) → List Nat → Option (Nat → Nat)
  | mem, [] => some mem
  | mem, i :: rest =>
    match regRead vars i with
    | none => none
    | some v =>
      match memWrite mem ((idx + i) % 65536) v with
      | none => none
      | some mem2 => storeRegsLoop vars idx mem2 rest

/-- The `Fx65` loop: loads every one of the 16 registers from memory
starting at `I`. -/
def loadRegsLoop (mem : Nat → Nat) (idx : Nat) :
    (Nat → Nat) → List Nat → Option (Nat → Nat)
  | vars, [] => some vars
  | vars, i :: rest =>
    match memRead mem ((idx + i) % 65536) with
    | none => none
    | some b =>
      match regWrite vars i b with
      | none => none
      | some vars2 => loadRegsLoop mem idx vars2 rest

/-- One fetch-decode-execute cycle of the operative interpreter
(`func (vm *VM) executeCycle()`), translated arm by arm from the Go source.
`rnd` stands for the value of `rand.Uint32()` consumed by the `Cxnn` arm.
`none` models a Go runtime panic: an out-of-range indexing or one of the
explicit `panic(...)` calls in the `Bnnn`, `Fx0A`, `Fx29`, `Fx33` arms. -/
def executeCycle (vm : VM) (rnd : Nat) : Option VM :=
  match memRead vm.memory vm.pc with
  | none => none
  | some hi =>
  match memRead vm.memory ((vm.pc + 1) % 65536) with
  | none => none
  | some lo =>
  let opcode := (hi <<< 8) ||| lo
  let vmf : VM := { vm with opcode := opcode, pc := (vm.pc + 2) % 65536 }
  let instr := opcode &&& 0xF000
  let x := decodeX opcode
  let y := decodeY opcode
  let n := opcode &&& 0x000F
  let nn := opcode &&& 0x00FF
  let nnn := opcode &&& 0x0FFF
  if instr = 0x0000 then
    if opcode &&& 0x00FF = 0x00E0 then
      some { vmf with pixels := fun _ _ => 0 }
    else if opcode &&& 0x00FF = 0x00EE then
      match regRead vmf.stack vmf.sp with
      | none => none
      | some addr => some { vmf with pc := addr, sp := (vmf.sp + 65535) % 65536 }
    else some vmf
  else if instr = 0x1000 then
    some { vmf with pc := nnn }
  else if instr = 0x2000 then
    let sp2 := (vmf.sp + 1) % 65536
    match regWrite vmf.stack sp2 vmf.pc with
    | none => none
    | some st => some { vmf with sp := sp2, stack := st, pc := nnn }
  else if instr = 0x3000 then
    match regRead vmf.vars x with
    | none => none
    | some vx =>
      some (if vx = nn then { vmf with pc := (vmf.pc + 2) % 65536 } else vmf)
  else if instr = 0x4000 then
    match regRead vmf.vars x with
    | none => none
    | some vx =>
      some (if vx ≠ nn then { vmf with pc := (vmf.pc + 2) % 65536 } else vmf)
  else if instr = 0x5000 then
    match regRead vmf.vars x with
    | none => none
    | some vx =>
      match regRead vmf.vars y with
      | none => none
      | some vy =>
        some (if vx = vy then { vmf with pc := (vmf.pc + 2) % 65536 } else vmf)
  else if instr = 0x6000 then
    match regWrite vmf.vars x nn with
    | none => none
    | some vs => some { vmf with vars := vs }
  else if instr = 0x7000 then
    match regRead vmf.vars x with
    | none => none
    | some vx =>
      match regWrite vmf.vars x ((vx + nn) % 256) with
      | none => none
      | some vs => some { vmf with vars := vs }
  else if instr = 0x8000 then
    let k := opcode &&& 0x000F
    if k = 0x0000 then
      match regRead vmf.vars y with
      | none => none
      | some vy =>
        match regWrite vmf.vars x vy with
        | none => none
        | some vs => some { vmf with vars := vs }
    else if k = 0x0001 then
      match regRead vmf.vars x with
      | none => none
      | some vx =>
        match regRead vmf.vars y with
        | none => none
        | some vy =>
          match regWrite vmf.vars x (vx ||| vy) with
          | none => none
          | some vs => some { vmf with vars := vs }
    else if k = 0x0002 then
      match regRead vmf.vars x with
      | none => none
      | some vx =>
        match regRead vmf.vars y with
        | none => none
        | some vy =>
          match regWrite vmf.vars x (vx &&& vy) with
          | none => none
          | some vs => some { vmf with vars := vs }
    else if k = 0x0003 then
      match regRead vmf.vars x with
      | none => none
      | some vx =>
        match regRead vmf.vars y with
        | none => none
        | some vy =>
          match regWrite vmf.vars x (vx ^^^ vy) with
          | none => none
          | some vs => some { vmf with vars := vs }
    else if k = 0x0004 then
      match regRead vmf.vars x with
      | none => none
      | some vx =>
        match regRead vmf.vars y with
        | none => none
        | some vy =>
          match regWrite vmf.vars x ((vx + vy) % 256) with
          | none => none
          | some vs => some { vmf with vars := vs }
    else if k = 0x0005 then
      match regRead vmf.vars x with
      | none => none
      | some vx =>
        match regRead vmf.vars y with
        | none => none
        | some vy =>
          match regWrite vmf.vars x ((vx + 256 - vy) % 256) with
          | none => none
          | some vs => some { vmf with vars := vs }
    else if k = 0x0006 then
      match regRead vmf.vars y with
      | none => none
      | some vy =>
        let vf2 := if vy &&& 0x01 = 0x1 then 1 else vmf.vf
        match regWrite vmf.vars x (vy >>> 1) with
        | none => none
        | some vs => some { vmf with vars := vs, vf := vf2 }
    else if k = 0x0007 then
      match regRead vmf.vars x with
      | none => none
      | some vx =>
        match regRead vmf.vars y with
        | none => none
        | some vy =>
          match regWrite vmf.vars x ((vy + 256 - vx) % 256) with
          | none => none
          | some vs => some { vmf with vars := vs }
    else if k = 0x000E then
      match regRead vmf.vars y with
      | none => none
      | some vy =>
        let vf2 := if vy &&& 0x80 = 0x80 then 1 else vmf.vf
        match regWrite vmf.vars x ((vy <<< 1) % 256) with
        | none => none
        | some vs => some { vmf with vars := vs, vf := vf2 }
    else some vmf
  else if instr = 0x9000 then
    match regRead vmf.vars x with
    | none => none
    | some vx =>
      match regRead vmf.vars y with
      | none => none
      | some vy =>
        some (if vx ≠ vy then { vmf with pc := (vmf.pc + 2) % 65536 } else vmf)
  else if instr = 0xA000 then
    some { vmf with index := nnn }
  else if instr = 0xB000 then
    none
  else if instr = 0xC000 then
    let r := rnd % 65536
    match regWrite vmf.vars x ((r &&& nn) % 256) with
    | none => none
    | some vs => some { vmf with vars := vs }
  else if instr = 0xD000 then
    execDraw vmf x y n
  else if instr = 0xF000 then
    if nn = 0x0007 then
      match regWrite vmf.vars x vmf.delayTimer with
      | none => none
      | some vs => some { vmf with vars := vs }
    else if nn = 0x0015 then
      match regRead vmf.vars x with
      | none => none
      | some vx => some { vmf with delayTimer := vx }
    else if nn = 0x0018 then
      match regRead vmf.vars x with
      | none => none
      | some vx => some { vmf with soundTimer := vx }
    else if nn = 0x001E then
      match regRead vmf.vars x with
      | none => none
      | some vx => some { vmf with index := (vmf.index + vx) % 65536 }
    else if nn = 0x000A then
      none
    else if nn = 0x0029 then
      none
    else if nn = 0x0033 then
      none
    else if nn = 0x0055 then
      match storeRegsLoop vmf.vars vmf.index vmf.memory (List.range 16) with
      | none => none
      | some mem2 => some { vmf with memory := mem2 }
    else if nn = 0x0065 then
      match loadRegsLoop vmf.memory vmf.index vmf.vars (List.range 16) with
      | none => none
      | some vars2 => some { vmf with vars := vars2 }
    else some vmf
  else some vmf

/-- Load-time failure of `LoadROM` (`fmt.Errorf` size-limit error). -/
inductive LoadError
  | romTooLarge
  deriving DecidableEq

/-- The copy loop of `LoadROM`:
`for i, b := range bytes { vm.memory[i+512] = b }`. -/
def copyROMLoop : (Nat → Nat) → List Nat → Nat → Option (Nat → Nat)
  | mem, [], _ => some mem
  | mem, b :: rest, i =>
    match memWrite mem (i + 512) b with
    | none => none
    | some mem2 => copyROMLoop mem2 rest (i + 1)

/-- `func (vm *VM) LoadROM`: rejects a ROM whose size exceeds 4096 bytes,
otherwise copies it into memory starting at address 512 (`0x200`).
The file-system read is external; the ROM bytes are passed in directly.
`none` models the Go panic raised when a copy write is out of range. -/
def LoadROM (vm : VM) (bytes : List Nat) : Option (Except LoadError VM) :=
  if bytes.length > 4096 then some (Except.error LoadError.romTooLarge)
  else
    match copyROMLoop vm.memory bytes 0 with
    | none => none
    | some mem2 => some (Except.ok { vm with memory := mem2 })

/-- The zero-initialized VM after `Init`: all fields zero except `pc = 0x200`. -/
def initVM : VM where
  opcode := 0
  memory := fun _ => 0
  pc := 0x200
  index := 0
  stack := fun _ => 0
  sp := 0
  delayTimer := 0
  soundTimer := 0
  vars := fun _ => 0
  vf := 0
  pixels := fun _ _ => 0


/-! ### Bit-field arithmetic toolkit

The Go decoder works with `&`, `>>`, `<<`, `|` on `uint16`; these lemmas
restate each mask/shift combination in `/`, `%`, `*` form so that `omega`
can reason about symbolic opcodes. -/

theorem and_mask_shift (a m k : Nat) :
    a &&& ((2 ^ m - 1) <<< k) = ((a >>> k) % 2 ^ m) <<< k := by
  apply Nat.eq_of_testBit_eq
  intro i
  simp only [Nat.testBit_and, Nat.testBit_shiftLeft, Nat.testBit_two_pow_sub_one,
    Nat.testBit_mod_two_pow, Nat.testBit_shiftRight]
  by_cases h : k ≤ i
  · have h2 : k + (i - k) = i := by omega
    simp [h, h2]
    cases a.testBit i <;> simp
  · simp [h]

theorem and_mask_mod (a m : Nat) : a &&& (2 ^ m - 1) = a % 2 ^ m :=
  Nat.and_pow_two_sub_one_eq_mod a m

theorem decodeX_arith (op : Nat) : decodeX op = op / 256 % 16 := by
  unfold decodeX
  have h : (0x0F00 : Nat) = (2 ^ 4 - 1) <<< 8 := by decide
  rw [h, and_mask_shift]
  simp [Nat.shiftLeft_eq, Nat.shiftRight_eq_div_pow]

theorem decodeY_arith (op : Nat) : decodeY op = op / 16 % 16 := by
  unfold decodeY
  have h : (0x00F0 : Nat) = (2 ^ 4 - 1) <<< 4 := by decide
  rw [h, and_mask_shift]
  simp [Nat.shiftLeft_eq, Nat.shiftRight_eq_div_pow]

theorem and_F000_arith (op : Nat) : op &&& 0xF000 = op / 4096 % 16 * 4096 := by
  have h : (0xF000 : Nat) = (2 ^ 4 - 1) <<< 12 := by decide
  rw [h, and_mask_shift]
  simp [Nat.shiftLeft_eq, Nat.shiftRight_eq_div_pow]

theorem and_FF_arith (op : Nat) : op &&& 0x00FF = op % 256 := by
  have h : (0x00FF : Nat) = 2 ^ 8 - 1 := by norm_num
  rw [h, and_mask_mod]; norm_num

theorem and_F_arith (op : Nat) : op &&& 0x000F = op % 16 := by
  have h : (0x000F : Nat) = 2 ^ 4 - 1 := by norm_num
  rw [h, and_mask_mod]; norm_num

theorem and_FFF_arith (op : Nat) : op &&& 0x0FFF = op % 4096 := by
  have h : (0x0FFF : Nat) = 2 ^ 12 - 1 := by norm_num
  rw [h, and_mask_mod]; norm_num

theorem and_63_arith (a : Nat) : a &&& 63 = a % 64 := by
  have h : (63 : Nat) = 2 ^ 6 - 1 := by norm_num
  rw [h, and_mask_mod]; norm_num

theorem and_31_arith (a : Nat) : a &&& 31 = a % 32 := by
  have h : (31 : Nat) = 2 ^ 5 - 1 := by norm_num
  rw [h, and_mask_mod]; norm_num

theorem and_128_iff (a : Nat) (ha : a < 256) : (a &&& 0x80 = 0x80) ↔ 128 ≤ a := by
  have h : (0x80 : Nat) = (2 ^ 1 - 1) <<< 7 := by decide
  rw [h, and_mask_shift]
  simp only [Nat.shiftLeft_eq, Nat.shiftRight_eq_div_pow]
  norm_num
  omega

theorem fetch_arith (hi lo : Nat) (hlo : lo < 256) :
    (hi <<< 8) ||| lo = hi * 256 + lo := by
  have h256 : lo < 2 ^ 8 := by simpa using hlo
  have h2 := Nat.mul_add_lt_is_or h256 hi
  calc (hi <<< 8) ||| lo = (2 ^ 8 * hi) ||| lo := by rw [Nat.shiftLeft_eq, Nat.mul_comm]
    _ = 2 ^ 8 * hi + lo := h2.symm
    _ = hi * 256 + lo := by ring

/-! ### Concrete machine states used by the code-level evaluations -/

/-- A zeroed VM whose memory holds the two opcode bytes `hi`, `lo` at the
initial PC `0x200`. -/
def vmWith (hi lo : Nat) : VM :=
  { initVM with memory := fun i => if i = 512 then hi else if i = 513 then lo else 0 }

/-- State for the `8xy4` carry test: opcode `0x8014`, `V0 = 200`, `V1 = 100`. -/
def vmAdd : VM :=
  { vmWith 0x80 0x14 with vars := fun i => if i = 0 then 200 else if i = 1 then 100 else 0 }

/-- State for the `8xy5` borrow test: opcode `0x8015`, `V0 = 10`, `V1 = 5`. -/
def vmSub : VM :=
  { vmWith 0x80 0x15 with vars := fun i => if i = 0 then 10 else if i = 1 then 5 else 0 }

/-- State for the right-edge draw test: opcode `0xD011` (draw 1 row at
`(V0, V1) = (60, 0)`), sprite byte `0xFF` at `I = 0x300`. -/
def vmDrawEdge : VM :=
  { initVM with
    memory := fun i =>
      if i = 512 then 0xD0 else if i = 513 then 0x11 else
      if i = 0x300 then 0xFF else 0,
    vars := fun i => if i = 0 then 60 else 0,
    index := 0x300 }

/-- State with opcode `0x5001` (invalid low nibble of the `5xy0` class) and
`V0 = V1 = 0`. -/
def vmBadSkip : VM := vmWith 0x50 0x01

/-- State with opcode `0xE0A1`: the `0xE000` class has no arm at all. -/
def vmNoClass : VM := vmWith 0xE0 0xA1

/-- State with opcode `0xB123`: the `Bnnn` arm calls `panic`. -/
def vmJumpOff : VM := vmWith 0xB1 0x23

/-- State for the `Fx55` test: opcode `0xF055` (so `x = 0`), registers
`Vi = i + 1`, `I = 0x300`. -/
def vmStore : VM :=
  { vmWith 0xF0 0x55 with vars := fun i => if i < 16 then i + 1 else 0, index := 0x300 }

/-- State for the out-of-range `Fx55` test: `I = 4088`, so the 16-register
copy loop writes past address 4095. -/
def vmStoreOOB : VM := { vmWith 0xF0 0x55 with index := 4088 }

/-- State for the `Fx65` test: opcode `0xF065` (so `x = 0`), `I = 0x300`,
memory bytes 9 and 8 at `0x300`, `0x301`. -/
def vmLoad : VM :=
  { initVM with
    memory := fun i =>
      if i = 512 then 0xF0 else if i = 513 then 0x65 else
      if i = 0x300 then 9 else if i = 0x301 then 8 else 0,
    index := 0x300 }

/-! ### Claim theorems -/

/-- C1: for every opcode value, the decoder extracts `x` (bits 8-11) and `y`
(bits 4-7) as values in `0..15`, so every register-file access
`variables[x]` / `variables[y]` the executor performs through them is in
bounds (the bounds-checked read `regRead` succeeds on every state). -/
theorem decoder_register_operands_in_range :
    ∀ op : Nat, decodeX op < 16 ∧ decodeY op < 16 ∧
      ∀ vm : VM, (regRead vm.vars (decodeX op)).isSome ∧
        (regRead vm.vars (decodeY op)).isSome := by
  intro op
  have hx : decodeX op < 16 := by rw [decodeX_arith]; omega
  have hy : decodeY op < 16 := by rw [decodeY_arith]; omega
  exact ⟨hx, hy, fun vm => ⟨by simp [regRead, hx], by simp [regRead, hy]⟩⟩

/-- C2: executing `8xy4` with `V0 = 200`, `V1 = 100` (unsigned sum 300,
which overflows) leaves the flag register at 0, and executing `8xy5` with
`V0 = 10 ≥ V1 = 5` also leaves it at 0 — the code updates only `Vx`
(`(Vx+Vy) mod 256` resp. `(Vx-Vy) mod 256`) and never writes the
carry/borrow flag the claim requires. -/
theorem arith8xy4_8xy5_flag_untouched :
    (executeCycle vmAdd 0).map (fun v => (v.vars 0, v.vf)) = some (44, 0) ∧
      (executeCycle vmSub 0).map (fun v => (v.vars 0, v.vf)) = some (5, 0) :=
  ⟨by decide, by decide⟩

/-- C3: a `Dxyn` draw starting at column 60 with sprite byte `0xFF` reaches
pixel column 64 and panics on the out-of-range access `pixels[64][0]`
(modelled by `none`) instead of clipping the sprite at the right edge. -/
theorem draw_right_edge_panics : executeCycle vmDrawEdge 0 = none := by rfl

/-- C7: executing `9xy0` adds 2 to the post-fetch PC exactly when
`Vx ≠ Vy`; when `Vx = Vy` the PC only gets the standard post-fetch
increment, and no other state (registers included) changes. -/
theorem skip9xy0_semantics (vm : VM) (rnd p x y vx vy : Nat)
    (hpc : vm.pc = p) (hp : p + 1 < 4096)
    (hhi : vm.memory p = 144 + x) (hx : x < 16)
    (hlo : vm.memory (p + 1) = 16 * y) (hy : y < 16)
    (hvx : vm.vars x = vx) (hvy : vm.vars y = vy) :
    executeCycle vm rnd =
      some { vm with opcode := (144 + x) * 256 + 16 * y,
                     pc := if vx = vy then p + 2 else p + 4 } := by
  subst hpc hvx hvy
  have hr1 : memRead vm.memory vm.pc = some (144 + x) := by
    simp [memRead, hhi]; omega
  have hmod : (vm.pc + 1) % 65536 = vm.pc + 1 := by omega
  have hr2 : memRead vm.memory ((vm.pc + 1) % 65536) = some (16 * y) := by
    rw [hmod]; simp [memRead, hlo]; omega
  have hw : ((144 + x) <<< 8) ||| (16 * y) = (144 + x) * 256 + 16 * y := by
    rw [fetch_arith]; omega
  have hinstr : ((144 + x) * 256 + 16 * y) &&& 0xF000 = 0x9000 := by
    rw [and_F000_arith]; omega
  have hdx : decodeX ((144 + x) * 256 + 16 * y) = x := by
    rw [decodeX_arith]; omega
  have hdy : decodeY ((144 + x) * 256 + 16 * y) = y := by
    rw [decodeY_arith]; omega
  have hrx : regRead vm.vars x = some (vm.vars x) := by simp [regRead, hx]
  have hry : regRead vm.vars y = some (vm.vars y) := by simp [regRead, hy]
  have hpc2 : (vm.pc + 2) % 65536 = vm.pc + 2 := by omega
  unfold executeCycle
  rw [hr1, hr2]
  simp only [hw, hinstr, hdx, hdy, hrx, hry, hpc2]
  norm_num
  split
  · next h => simp [h]
  · next h => simp [h]; omega

/-- Witness for C7: in a state with opcode `0x9010`, `V0 = 3`, `V1 = 0`,
the theorem instantiates and the skip is taken (`pc` goes from `0x200`
to `0x204`). -/
theorem skip9xy0_semantics_witness :
    executeCycle
        { vmWith 0x90 0x10 with vars := fun i => if i = 0 then 3 else 0 } 0 =
      some { { vmWith 0x90 0x10 with vars := fun i => if i = 0 then 3 else 0 } with
             opcode := (144 + 0) * 256 + 16 * 1,
             pc := if 3 = 0 then 512 + 2 else 512 + 4 } :=
  skip9xy0_semantics _ 0 512 0 1 3 0 rfl (by decide) (by decide) (by decide)
    (by decide) (by decide) rfl rfl

/-- C9: unrecognized opcode patterns are not reported as errors:
`0x5001` (invalid low nibble) is executed as if it were `5xy0` and (with
`V0 = V1`) even skips an instruction (PC `0x200` to `0x204`); `0xE0A1`
(a class with no arm) is silently ignored (only `opcode` and the standard
post-fetch PC change); and `0xB123` aborts the process via `panic`
(modelled by `none`).  There is no `UnsupportedOpcode` error result
anywhere in `executeCycle`. -/
theorem unknown_opcode_not_reported :
    (executeCycle vmBadSkip 0).map (fun v => v.pc) = some 0x204 ∧
      executeCycle vmNoClass 0 = some { vmNoClass with opcode := 0xE0A1, pc := 0x202 } ∧
      executeCycle vmJumpOff 0 = none :=
  ⟨by decide, by rfl, by rfl⟩

/-- C10: for `8xy6` the flag register is set to 1 when the shifted-out low
bit of `Vy` is 1 and left entirely unchanged otherwise, with
`Vx := Vy >> 1`; for `8xyE` the flag register is set to 1 when the
shifted-out high bit of `Vy` is 1 and left entirely unchanged otherwise,
with `Vx := (Vy << 1) mod 256`.  Nothing else changes beyond the standard
fetch bookkeeping. -/
theorem shift_flag_set_only_on_one_bit :
    (∀ (vm : VM) (rnd p x y vy : Nat), vm.pc = p → p + 1 < 4096 →
      vm.memory p = 128 + x → x < 16 →
      vm.memory (p + 1) = 16 * y + 6 → y < 16 → vm.vars y = vy →
      executeCycle vm rnd =
        some { vm with opcode := (128 + x) * 256 + 16 * y + 6,
                       pc := p + 2,
                       vars := fun j => if j = x then vy >>> 1 else vm.vars j,
                       vf := if vy % 2 = 1 then 1 else vm.vf }) ∧
    (∀ (vm : VM) (rnd p x y vy : Nat), vm.pc = p → p + 1 < 4096 →
      vm.memory p = 128 + x → x < 16 →
      vm.memory (p + 1) = 16 * y + 14 → y < 16 → vm.vars y = vy → vy < 256 →
      executeCycle vm rnd =
        some { vm with opcode := (128 + x) * 256 + 16 * y + 14,
                       pc := p + 2,
                       vars := fun j => if j = x then vy * 2 % 256 else vm.vars j,
                       vf := if 128 ≤ vy then 1 else vm.vf }) := by
  constructor
  · intro vm rnd p x y vy hpc hp hhi hx hlo hy hvy
    subst hpc hvy
    have hr1 : memRead vm.memory vm.pc = some (128 + x) := by
      simp [memRead, hhi]; omega
    have hmod : (vm.pc + 1) % 65536 = vm.pc + 1 := by omega
    have hr2 : memRead vm.memory ((vm.pc + 1) % 65536) = some (16 * y + 6) := by
      rw [hmod]; simp [memRead, hlo]; omega
    have hw : ((128 + x) <<< 8) ||| (16 * y + 6) = (128 + x) * 256 + (16 * y + 6) := by
      rw [fetch_arith]; omega
    have hinstr : ((128 + x) * 256 + (16 * y + 6)) &&& 0xF000 = 0x8000 := by
      rw [and_F000_arith]; omega
    have hk : ((128 + x) * 256 + (16 * y + 6)) &&& 0x000F = 6 := by
      rw [and_F_arith]; omega
    have hdx : decodeX ((128 + x) * 256 + (16 * y + 6)) = x := by
      rw [decodeX_arith]; omega
    have hdy : decodeY ((128 + x) * 256 + (16 * y + 6)) = y := by
      rw [decodeY_arith]; omega
    have hry : regRead vm.vars y = some (vm.vars y) := by simp [regRead, hy]
    have hwx : regWrite vm.vars x (vm.vars y >>> 1) =
        some (fun j => if j = x then vm.vars y >>> 1 else vm.vars j) := by
      simp [regWrite, hx]
    have hone : vm.vars y &&& 0x01 = vm.vars y % 2 := Nat.and_one_is_mod _
    have hpc2 : (vm.pc + 2) % 65536 = vm.pc + 2 := by omega
    unfold executeCycle
    rw [hr1, hr2]
    simp only [hw, hinstr, hk, hdx, hdy, hry, hwx, hone, hpc2]
    norm_num
    omega
  · intro vm rnd p x y vy hpc hp hhi hx hlo hy hvy hv256
    subst hpc hvy
    have hr1 : memRead vm.memory vm.pc = some (128 + x) := by
      simp [memRead, hhi]; omega
    have hmod : (vm.pc + 1) % 65536 = vm.pc + 1 := by omega
    have hr2 : memRead vm.memory ((vm.pc + 1) % 65536) = some (16 * y + 14) := by
      rw [hmod]; simp [memRead, hlo]; omega
    have hw : ((128 + x) <<< 8) ||| (16 * y + 14) = (128 + x) * 256 + (16 * y + 14) := by
      rw [fetch_arith]; omega
    have hinstr : ((128 + x) * 256 + (16 * y + 14)) &&& 0xF000 = 0x8000 := by
      rw [and_F000_arith]; omega
    have hk : ((128 + x) * 256 + (16 * y + 14)) &&& 0x000F = 14 := by
      rw [and_F_arith]; omega
    have hdx : decodeX ((128 + x) * 256 + (16 * y + 14)) = x := by
      rw [decodeX_arith]; omega
    have hdy : decodeY ((128 + x) * 256 + (16 * y + 14)) = y := by
      rw [decodeY_arith]; omega
    have hry : regRead vm.vars y = some (vm.vars y) := by simp [regRead, hy]
    have hshl : vm.vars y <<< 1 = vm.vars y * 2 := by
      rw [Nat.shiftLeft_eq]
    have hwx : regWrite vm.vars x (vm.vars y * 2 % 256) =
        some (fun j => if j = x then vm.vars y * 2 % 256 else vm.vars j) := by
      simp [regWrite, hx]
    have hbit : (vm.vars y &&& 0x80 = 0x80) = (128 ≤ vm.vars y) := by
      rw [eq_iff_iff]; exact and_128_iff _ hv256
    have hpc2 : (vm.pc + 2) % 65536 = vm.pc + 2 := by omega
    unfold executeCycle
    rw [hr1, hr2]
    simp only [hw, hinstr, hk, hdx, hdy, hry, hshl, hwx, hbit, hpc2]
    norm_num
    omega

/-- Witness for C10: `8016` with `V1 = 7` (low bit 1) sets the flag and
stores `3` in `V0`; the hypotheses are discharged at this concrete state. -/
theorem shift_flag_set_only_on_one_bit_witness :
    executeCycle
        { vmWith 0x80 0x16 with vars := fun i => if i = 1 then 7 else 0 } 0 =
      some { { vmWith 0x80 0x16 with vars := fun i => if i = 1 then 7 else 0 } with
             opcode := (128 + 0) * 256 + 16 * 1 + 6,
             pc := 512 + 2,
             vars := fun j => if j = 0 then 7 >>> 1 else
               (fun i => if i = 1 then 7 else 0 : Nat → Nat) j,
             vf := if 7 % 2 = 1 then 1 else 0 } :=
  shift_flag_set_only_on_one_bit.1 _ 0 512 0 1 7 rfl (by decide) (by decide)
    (by decide) (by decide) (by decide) rfl

/-! ### ROM-copy loop characterization -/

/-- When the whole ROM fits below address 4096 the copy loop succeeds and
writes exactly `bytes` at `[512+i, 512+i+|bytes|)`, leaving every other
byte untouched. -/
theorem copyROMLoop_some : ∀ (bytes : List Nat) (mem : Nat → Nat) (i : Nat),
    i + 512 + bytes.length ≤ 4096 →
    ∃ mem2, copyROMLoop mem bytes i = some mem2 ∧
      ∀ j, mem2 j = if 512 + i ≤ j ∧ j < 512 + i + bytes.length
        then bytes.getD (j - 512 - i) 0 else mem j := by
  intro bytes
  induction bytes with
  | nil =>
    intro mem i _
    exact ⟨mem, rfl, fun j => by rw [if_neg]; simp⟩
  | cons b rest ih =>
    intro mem i h
    simp only [List.length_cons] at h
    have hw : memWrite mem (i + 512) b =
        some (fun j => if j = i + 512 then b else mem j) := by
      simp [memWrite]; omega
    obtain ⟨mem2, hrun, hchar⟩ :=
      ih (fun j => if j = i + 512 then b else mem j) (i + 1) (by omega)
    refine ⟨mem2, by simp [copyROMLoop, hw, hrun], ?_⟩
    intro j
    rw [hchar j]
    simp only [List.length_cons]
    by_cases h1 : 512 + (i + 1) ≤ j ∧ j < 512 + (i + 1) + rest.length
    · rw [if_pos h1, if_pos (by omega)]
      have hj : j - 512 - i = (j - 512 - (i + 1)) + 1 := by omega
      rw [hj, List.getD_cons_succ]
    · rw [if_neg h1]
      by_cases h2 : j = i + 512
      · subst h2
        rw [if_pos rfl, if_pos (by omega)]
        have hj : i + 512 - 512 - i = 0 := by omega
        rw [hj, List.getD_cons_zero]
      · simp only [if_neg h2]
        rw [if_neg]
        omega

/-- When the ROM is nonempty and its last byte would land at or past
address 4096, the copy loop hits the out-of-range write and panics. -/
theorem copyROMLoop_none : ∀ (bytes : List Nat) (mem : Nat → Nat) (i : Nat),
    bytes ≠ [] → 4096 < i + 512 + bytes.length →
    copyROMLoop mem bytes i = none := by
  intro bytes
  induction bytes with
  | nil => intro mem i h _; exact absurd rfl h
  | cons b rest ih =>
    intro mem i _ h
    simp only [List.length_cons] at h
    by_cases hw : i + 512 < 4096
    · have hwr : memWrite mem (i + 512) b =
          some (fun j => if j = i + 512 then b else mem j) := by
        simp [memWrite, hw]
      have hrest : rest ≠ [] := by
        intro he
        subst he
        simp at h
        omega
      simp only [copyROMLoop, hwr]
      exact ih _ (i + 1) hrest (by omega)
    · have hwr : memWrite mem (i + 512) b = none := by simp [memWrite]; omega
      simp [copyROMLoop, hwr]

/-- C5: the ROM size check compares against 4096, not 3584.  A 3584-byte
ROM loads fine (byte 0 lands at `0x200`, the last byte at `0xFFF`), but a
3585-byte ROM — which the claim says must be rejected with `RomTooLarge`
before memory is touched — passes the check, has its first 3584 bytes
copied, and then panics (`none`) on the out-of-range write at address
4096.  Only a ROM larger than 4096 bytes gets the size-limit error. -/
theorem loadROM_size_limit_is_4096_not_3584 :
    (∃ v : VM, LoadROM initVM (List.replicate 3584 7) = some (Except.ok v) ∧
        v.memory 0x200 = 7 ∧ v.memory 0xFFF = 7 ∧ v.memory 0x1FF = 0) ∧
      LoadROM initVM (List.replicate 3585 7) = none ∧
      LoadROM initVM (List.replicate 4097 7) =
        some (Except.error LoadError.romTooLarge) := by
  have hl4 : (List.replicate 3584 7).length = 3584 := List.length_replicate 3584 7
  have hl5 : (List.replicate 3585 7).length = 3585 := List.length_replicate 3585 7
  have hl7 : (List.replicate 4097 7).length = 4097 := List.length_replicate 4097 7
  refine ⟨?_, ?_, ?_⟩
  · obtain ⟨mem2, hrun, hchar⟩ :=
      copyROMLoop_some (List.replicate 3584 7) initVM.memory 0 (by rw [hl4])
    refine ⟨{ initVM with memory := mem2 }, ?_, ?_, ?_, ?_⟩
    · unfold LoadROM
      rw [hl4, if_neg (by omega), hrun]
    · show mem2 512 = 7
      rw [hchar 512, if_pos (by rw [hl4]; omega)]
      rw [List.getD_eq_getElem?_getD, List.getElem?_replicate_of_lt (by omega)]
      rfl
    · show mem2 4095 = 7
      rw [hchar 4095, if_pos (by rw [hl4]; omega)]
      rw [List.getD_eq_getElem?_getD, List.getElem?_replicate_of_lt (by omega)]
      rfl
    · show mem2 511 = 0
      rw [hchar 511, if_neg (by rw [hl4]; omega)]
      rfl
  · have hnone := copyROMLoop_none (List.replicate 3585 7) initVM.memory 0
      (List.ne_nil_of_length_pos (by rw [hl5]; omega)) (by rw [hl5]; omega)
    unfold LoadROM
    rw [hl5, if_neg (by omega), hnone]
  · unfold LoadROM
    rw [hl7, if_pos (by omega)]

/-- C8: `Fx55` with `x = 0` writes all 16 registers to `[I, I+15]`
(memory at `I+1` and `I+15` is modified although the claim requires
everything past `I+x = I` untouched); with `I = 4088` the 16-byte copy
runs past address 4095 and panics (`none`) instead of producing an
`OutOfBounds` error; and `Fx65` with `x = 0` overwrites `V1` from memory
although the claim requires `V1..VF` untouched. -/
theorem fx55_fx65_copy_all_registers :
    (executeCycle vmStore 0).map
        (fun v => (v.memory 0x300, v.memory 0x301, v.memory 0x30F, v.memory 0x310)) =
      some (1, 2, 16, 0) ∧
      executeCycle vmStoreOOB 0 = none ∧
      (executeCycle vmLoad 0).map (fun v => (v.vars 0, v.vars 1)) = some (9, 8) :=
  ⟨by decide, by rfl, by decide⟩

/-- C6: executing `2nnn` at address `p` and then `00EE` at `nnn` brings the
PC to `p + 2`, the instruction right after the call, and restores the stack
pointer. -/
theorem call_then_return_restores_pc (vm : VM) (rnd rnd2 p a b : Nat)
    (hpc : vm.pc = p) (hp : p + 1 < 4096)
    (hhi : vm.memory p = 32 + a) (ha : a < 16)
    (hlo : vm.memory (p + 1) = b) (hb : b < 256)
    (hsp : vm.sp + 1 < 16)
    (hm1 : vm.memory (a * 256 + b) = 0x00)
    (hm2 : vm.memory (a * 256 + b + 1) = 0xEE)
    (hq : a * 256 + b + 1 < 4096) :
    ∃ vm1 vm2, executeCycle vm rnd = some vm1 ∧ executeCycle vm1 rnd2 = some vm2 ∧
      vm2.pc = p + 2 ∧ vm2.sp = vm.sp := by
  subst hpc
  have h1 : executeCycle vm rnd =
      some { vm with opcode := (32 + a) * 256 + b,
                     pc := a * 256 + b,
                     sp := vm.sp + 1,
                     stack := fun j => if j = vm.sp + 1 then vm.pc + 2 else vm.stack j } := by
    have hr1 : memRead vm.memory vm.pc = some (32 + a) := by
      simp [memRead, hhi]; omega
    have hmod : (vm.pc + 1) % 65536 = vm.pc + 1 := by omega
    have hr2 : memRead vm.memory ((vm.pc + 1) % 65536) = some b := by
      rw [hmod]; simp [memRead, hlo]; omega
    have hw : ((32 + a) <<< 8) ||| b = (32 + a) * 256 + b := by
      rw [fetch_arith]; omega
    have hinstr : ((32 + a) * 256 + b) &&& 0xF000 = 0x2000 := by
      rw [and_F000_arith]; omega
    have hnnn : ((32 + a) * 256 + b) &&& 0x0FFF = a * 256 + b := by
      rw [and_FFF_arith]; omega
    have hpc2 : (vm.pc + 2) % 65536 = vm.pc + 2 := by omega
    have hsp2 : (vm.sp + 1) % 65536 = vm.sp + 1 := by omega
    have hws : regWrite vm.stack (vm.sp + 1) (vm.pc + 2) =
        some (fun j => if j = vm.sp + 1 then vm.pc + 2 else vm.stack j) := by
      simp [regWrite]; omega
    unfold executeCycle
    rw [hr1, hr2]
    simp only [hw, hinstr, hnnn, hpc2, hsp2, hws]
    norm_num
  have h2 : ∀ w : VM, w.pc = a * 256 + b → w.memory = vm.memory →
      w.sp = vm.sp + 1 → w.stack (vm.sp + 1) = vm.pc + 2 →
      executeCycle w rnd2 =
        some { w with opcode := 238, pc := vm.pc + 2, sp := vm.sp } := by
    intro w hwpc hwmem hwsp hwstack
    have hr1 : memRead w.memory w.pc = some 0 := by
      rw [hwpc, hwmem]; simp [memRead, hm1]; omega
    have hmod : (w.pc + 1) % 65536 = a * 256 + b + 1 := by rw [hwpc]; omega
    have hr2 : memRead w.memory ((w.pc + 1) % 65536) = some 0xEE := by
      rw [hmod, hwmem]; simp [memRead, hm2]; omega
    have hw : ((0 : Nat) <<< 8) ||| 0xEE = 238 := by decide
    have hinstr : (238 : Nat) &&& 0xF000 = 0 := by decide
    have hxee : (238 : Nat) &&& 0x00FF = 238 := by decide
    have hrs : regRead w.stack w.sp = some (vm.pc + 2) := by
      rw [hwsp]
      simp [regRead]
      constructor
      · omega
      · exact hwstack
    have hsp3 : (w.sp + 65535) % 65536 = vm.sp := by rw [hwsp]; omega
    unfold executeCycle
    rw [hr1, hr2]
    simp only [hw, hinstr, hxee, hrs, hsp3]
    norm_num
  refine ⟨_, _, h1, h2 _ rfl rfl rfl (by simp), rfl, rfl⟩

/-- Witness for C6: a call from `0x200` to `0x345` followed by the return
lands the PC on `0x202` with the stack pointer back at 0. -/
theorem call_then_return_restores_pc_witness :
    ∃ vm1 vm2,
      executeCycle
          { initVM with memory := fun i =>
              if i = 512 then 0x23 else if i = 513 then 0x45 else
              if i = 0x345 then 0x00 else if i = 0x346 then 0xEE else 0 } 0 =
        some vm1 ∧
      executeCycle vm1 0 = some vm2 ∧ vm2.pc = 512 + 2 ∧
      vm2.sp = ({ initVM with memory := fun i =>
        if i = 512 then 0x23 else if i = 513 then 0x45 else
        if i = 0x345 then 0x00 else if i = 0x346 then 0xEE else 0 } : VM).sp :=
  call_then_return_restores_pc _ 0 0 512 3 0x45 rfl (by decide) (by decide)
    (by decide) (by decide) (by decide) (by decide) (by decide) (by decide)
    (by decide)

/-! ### Sprite-draw loop characterization (for the XOR-involution claim)

`drawBitsLoop` and `drawRowsLoop` are characterized pointwise: which pixels
get toggled, when the collision flag changes, and that the loops cannot
fail when every set sprite bit lands on the screen.  The `Pairwise`
hypotheses say that distinct loop iterations touch distinct cells, which
holds in the interpreter because the 8 bit columns (resp. the `n < 16`
rows) map to distinct coordinates. -/

theorem setPix_ne (px : Nat → Nat → Nat) (c r v c2 r2 : Nat)
    (h : ¬(c2 = c ∧ r2 = r)) : setPix px c r v c2 r2 = px c2 r2 := by
  simp only [setPix]
  rw [if_neg h]

theorem setPix_self (px : Nat → Nat → Nat) (c r v : Nat) :
    setPix px c r v c r = v := by
  simp [setPix]

theorem drawBitsLoop_run (xc row sr : Nat) :
    ∀ (bits : List Nat),
    List.Pairwise (fun a b => (xc + a) % 256 ≠ (xc + b) % 256) bits →
    (∀ bx ∈ bits, sr &&& (0x80 >>> bx) ≠ 0 → (xc + bx) % 256 < 64 ∧ row < 32) →
    ∀ (px : Nat → Nat → Nat) (vf : Nat),
    ∃ px2 vf2, drawBitsLoop xc row sr bits px vf = some (px2, vf2) ∧
      (∀ c r, (∀ bx ∈ bits, sr &&& (0x80 >>> bx) ≠ 0 →
          ¬(c = (xc + bx) % 256 ∧ r = row)) → px2 c r = px c r) ∧
      (∀ bx ∈ bits, sr &&& (0x80 >>> bx) ≠ 0 →
        px2 ((xc + bx) % 256) row = px ((xc + bx) % 256) row ^^^ 255) ∧
      ((∀ bx ∈ bits, sr &&& (0x80 >>> bx) ≠ 0 → px ((xc + bx) % 256) row ≠ 255) →
        vf2 = vf) ∧
      (∀ bx ∈ bits, sr &&& (0x80 >>> bx) ≠ 0 → px ((xc + bx) % 256) row = 255 →
        vf2 = 1) ∧
      (vf = 1 → vf2 = 1) := by
  intro bits
  induction bits with
  | nil =>
    intro _ _ px vf
    exact ⟨px, vf, rfl, fun c r _ => rfl, by simp, fun _ => rfl, by simp, fun h => h⟩
  | cons bx0 rest ih =>
    intro hpw hbnd px vf
    rw [List.pairwise_cons] at hpw
    obtain ⟨hne, hpw2⟩ := hpw
    have hbnd2 : ∀ bx ∈ rest, sr &&& (0x80 >>> bx) ≠ 0 →
        (xc + bx) % 256 < 64 ∧ row < 32 :=
      fun bx hm hb => hbnd bx (List.mem_cons_of_mem _ hm) hb
    by_cases hb0 : sr &&& (0x80 >>> bx0) = 0
    · obtain ⟨px2, vf2, hrun, ha, hb, hc, hd, he⟩ := ih hpw2 hbnd2 px vf
      refine ⟨px2, vf2, ?_, ?_, ?_, ?_, ?_, he⟩
      · simp only [drawBitsLoop, if_pos hb0]
        exact hrun
      · intro c r hno
        exact ha c r (fun bx hm hbit => hno bx (List.mem_cons_of_mem _ hm) hbit)
      · intro bx hm hbit
        rcases List.mem_cons.mp hm with h | h
        · subst h
          exact absurd hb0 hbit
        · exact hb bx h hbit
      · intro hnc
        exact hc (fun bx hm hbit => hnc bx (List.mem_cons_of_mem _ hm) hbit)
      · intro bx hm hbit hpx
        rcases List.mem_cons.mp hm with h | h
        · subst h
          exact absurd hb0 hbit
        · exact hd bx h hbit hpx
    · obtain ⟨hc0, hrow⟩ := hbnd bx0 (List.mem_cons_self _ _) hb0
      have hget : getPix px ((xc + bx0) % 256) row =
          some (px ((xc + bx0) % 256) row) := by
        simp [getPix, hc0, hrow]
      obtain ⟨px2, vf2, hrun, ha, hb, hc, hd, he⟩ :=
        ih hpw2 hbnd2
          (setPix px ((xc + bx0) % 256) row (px ((xc + bx0) % 256) row ^^^ 255))
          (if px ((xc + bx0) % 256) row = 255 then 1 else vf)
      have hsetne : ∀ bx ∈ rest,
          setPix px ((xc + bx0) % 256) row (px ((xc + bx0) % 256) row ^^^ 255)
            ((xc + bx) % 256) row = px ((xc + bx) % 256) row := by
        intro bx hm
        apply setPix_ne
        intro hcontra
        exact hne bx hm hcontra.1.symm
      refine ⟨px2, vf2, ?_, ?_, ?_, ?_, ?_, ?_⟩
      · simp only [drawBitsLoop, if_neg hb0, hget]
        exact hrun
      · intro c r hno
        have hno0 : ¬(c = (xc + bx0) % 256 ∧ r = row) :=
          hno bx0 (List.mem_cons_self _ _) hb0
        rw [ha c r (fun bx hm hbit => hno bx (List.mem_cons_of_mem _ hm) hbit)]
        exact setPix_ne _ _ _ _ _ _ hno0
      · intro bx hm hbit
        rcases List.mem_cons.mp hm with h | h
        · subst h
          have hrest : ∀ bx2 ∈ rest, sr &&& (0x80 >>> bx2) ≠ 0 →
              ¬((xc + bx) % 256 = (xc + bx2) % 256 ∧ row = row) := by
            intro bx2 hm2 _ hcontra
            exact hne bx2 hm2 hcontra.1
          rw [ha _ _ hrest, setPix_self]
        · rw [hb bx h hbit, hsetne bx h]
      · intro hnc
        have h1 : vf2 = (if px ((xc + bx0) % 256) row = 255 then 1 else vf) := by
          apply hc
          intro bx hm hbit
          rw [hsetne bx hm]
          exact hnc bx (List.mem_cons_of_mem _ hm) hbit
        rw [h1, if_neg (hnc bx0 (List.mem_cons_self _ _) hb0)]
      · intro bx hm hbit hpx
        rcases List.mem_cons.mp hm with h | h
        · subst h
          apply he
          rw [if_pos hpx]
        · apply hd bx h hbit
          rw [hsetne bx h]
          exact hpx
      · intro hvf
        apply he
        by_cases ho : px ((xc + bx0) % 256) row = 255
        · rw [if_pos ho]
        · rw [if_neg ho]
          exact hvf

theorem drawRowsLoop_run (mem : Nat → Nat) (idx xc yc : Nat) (hxc : xc + 7 < 256) :
    ∀ (rows : List Nat),
    List.Pairwise (fun a b => (yc + a % 256) % 256 ≠ (yc + b % 256) % 256) rows →
    (∀ ry ∈ rows, (idx + ry) % 65536 < 4096) →
    (∀ ry ∈ rows, ∀ bx, bx < 8 →
        mem ((idx + ry) % 65536) &&& (0x80 >>> bx) ≠ 0 →
        (xc + bx) % 256 < 64 ∧ (yc + ry % 256) % 256 < 32) →
    ∀ (px : Nat → Nat → Nat) (vf : Nat),
    ∃ px2 vf2, drawRowsLoop mem idx xc yc rows px vf = some (px2, vf2) ∧
      (∀ c r, (∀ ry ∈ rows, ∀ bx, bx < 8 →
          mem ((idx + ry) % 65536) &&& (0x80 >>> bx) ≠ 0 →
          ¬(c = (xc + bx) % 256 ∧ r = (yc + ry % 256) % 256)) →
        px2 c r = px c r) ∧
      (∀ ry ∈ rows, ∀ bx, bx < 8 →
        mem ((idx + ry) % 65536) &&& (0x80 >>> bx) ≠ 0 →
        px2 ((xc + bx) % 256) ((yc + ry % 256) % 256) =
          px ((xc + bx) % 256) ((yc + ry % 256) % 256) ^^^ 255) ∧
      ((∀ ry ∈ rows, ∀ bx, bx < 8 →
          mem ((idx + ry) % 65536) &&& (0x80 >>> bx) ≠ 0 →
          px ((xc + bx) % 256) ((yc + ry % 256) % 256) ≠ 255) → vf2 = vf) ∧
      (∀ ry ∈ rows, ∀ bx, bx < 8 →
        mem ((idx + ry) % 65536) &&& (0x80 >>> bx) ≠ 0 →
        px ((xc + bx) % 256) ((yc + ry % 256) % 256) = 255 → vf2 = 1) ∧
      (vf = 1 → vf2 = 1) := by
  intro rows
  induction rows with
  | nil =>
    intro _ _ _ px vf
    exact ⟨px, vf, rfl, fun c r _ => rfl, by simp, fun _ => rfl, by simp, fun h => h⟩
  | cons ry0 rest ih =>
    intro hpw hmem hbnd px vf
    rw [List.pairwise_cons] at hpw
    obtain ⟨hne, hpw2⟩ := hpw
    have hmem0 := hmem ry0 (List.mem_cons_self _ _)
    have hmemR : ∀ ry ∈ rest, (idx + ry) % 65536 < 4096 :=
      fun ry hm => hmem ry (List.mem_cons_of_mem _ hm)
    have hbnd0 := hbnd ry0 (List.mem_cons_self _ _)
    have hbndR : ∀ ry ∈ rest, ∀ bx, bx < 8 →
        mem ((idx + ry) % 65536) &&& (0x80 >>> bx) ≠ 0 →
        (xc + bx) % 256 < 64 ∧ (yc + ry % 256) % 256 < 32 :=
      fun ry hm => hbnd ry (List.mem_cons_of_mem _ hm)
    have hpw8 : List.Pairwise (fun a b => (xc + a) % 256 ≠ (xc + b) % 256)
        (List.range 8) := by
      refine (List.pairwise_lt_range 8).imp_of_mem ?_
      intro a b ha hb hab
      rw [List.mem_range] at ha hb
      rw [Nat.mod_eq_of_lt (by omega), Nat.mod_eq_of_lt (by omega)]
      omega
    have hbnd8 : ∀ bx ∈ List.range 8,
        mem ((idx + ry0) % 65536) &&& (0x80 >>> bx) ≠ 0 →
        (xc + bx) % 256 < 64 ∧ (yc + ry0 % 256) % 256 < 32 :=
      fun bx hm hb => hbnd0 bx (List.mem_range.mp hm) hb
    obtain ⟨px1, vf1, hrun1, a1, b1, c1, d1, e1⟩ :=
      drawBitsLoop_run xc ((yc + ry0 % 256) % 256) (mem ((idx + ry0) % 65536))
        (List.range 8) hpw8 hbnd8 px vf
    obtain ⟨px2, vf2, hrun2, a2, b2, c2, d2, e2⟩ := ih hpw2 hmemR hbndR px1 vf1
    have hmr : memRead mem ((idx + ry0) % 65536) =
        some (mem ((idx + ry0) % 65536)) := by
      simp [memRead, hmem0]
    refine ⟨px2, vf2, ?_, ?_, ?_, ?_, ?_, fun h => e2 (e1 h)⟩
    · simp only [drawRowsLoop, hmr, hrun1]
      exact hrun2
    · intro c r hno
      have hnoR : ∀ ry ∈ rest, ∀ bx, bx < 8 →
          mem ((idx + ry) % 65536) &&& (0x80 >>> bx) ≠ 0 →
          ¬(c = (xc + bx) % 256 ∧ r = (yc + ry % 256) % 256) :=
        fun ry hm => hno ry (List.mem_cons_of_mem _ hm)
      rw [a2 c r hnoR]
      exact a1 c r
        (fun bx hm hb => hno ry0 (List.mem_cons_self _ _) bx (List.mem_range.mp hm) hb)
    · intro ry hm bx hbx hbit
      rcases List.mem_cons.mp hm with h | h
      · subst h
        have hnoR : ∀ ry2 ∈ rest, ∀ bx2, bx2 < 8 →
            mem ((idx + ry2) % 65536) &&& (0x80 >>> bx2) ≠ 0 →
            ¬((xc + bx) % 256 = (xc + bx2) % 256 ∧
              (yc + ry % 256) % 256 = (yc + ry2 % 256) % 256) :=
          fun ry2 hm2 bx2 _ _ hcontra => hne ry2 hm2 hcontra.2
        rw [a2 _ _ hnoR]
        exact b1 bx (List.mem_range.mpr hbx) hbit
      · rw [b2 ry h bx hbx hbit]
        have hpx1 : px1 ((xc + bx) % 256) ((yc + ry % 256) % 256) =
            px ((xc + bx) % 256) ((yc + ry % 256) % 256) :=
          a1 _ _ (fun bx2 _ _ hcontra => hne ry h hcontra.2.symm)
        rw [hpx1]
    · intro hnc
      have h1 : vf1 = vf :=
        c1 (fun bx hm hb =>
          hnc ry0 (List.mem_cons_self _ _) bx (List.mem_range.mp hm) hb)
      have h2 : vf2 = vf1 := by
        apply c2
        intro ry hm bx hbx hb
        have hpx1 : px1 ((xc + bx) % 256) ((yc + ry % 256) % 256) =
            px ((xc + bx) % 256) ((yc + ry % 256) % 256) :=
          a1 _ _ (fun bx2 _ _ hcontra => hne ry hm hcontra.2.symm)
        rw [hpx1]
        exact hnc ry (List.mem_cons_of_mem _ hm) bx hbx hb
      rw [h2, h1]
    · intro ry hm bx hbx hbit hpx
      rcases List.mem_cons.mp hm with h | h
      · subst h
        exact e2 (d1 bx (List.mem_range.mpr hbx) hbit hpx)
      · apply d2 ry h bx hbx hbit
        have hpx1 : px1 ((xc + bx) % 256) ((yc + ry % 256) % 256) =
            px ((xc + bx) % 256) ((yc + ry % 256) % 256) :=
          a1 _ _ (fun bx2 _ _ hcontra => hne ry h hcontra.2.symm)
        rw [hpx1]
        exact hpx

/-- Characterization of a single `Dxyn` execution (`execDraw`): it returns
the input state with only `pixels` and `vf` replaced; pixels away from set
sprite bits keep their value, pixels under a set sprite bit are XOR-ed with
`0xFF`, and the flag comes out 0 when no touched pixel was `0xFF`
(the flag is reset at the start of the instruction) and 1 when some touched
pixel was `0xFF`.  The state fields are abstracted by the equations
`hmemf`/`hidxf`/`hpxf` so the lemma applies directly to record literals. -/
theorem execDraw_char (w : VM) (x y n vx vy : Nat) (mem : Nat → Nat)
    (idx : Nat) (px0 : Nat → Nat → Nat)
    (hx : x < 16) (hy : y < 16) (hn : n < 16)
    (hmemf : w.memory = mem) (hidxf : w.index = idx) (hpxf : w.pixels = px0)
    (hvx : w.vars x = vx) (hvy : w.vars y = vy)
    (hidx : idx + n < 4096)
    (hbnd : ∀ ry, ry < n → ∀ bx, bx < 8 →
        mem (idx + ry) &&& (0x80 >>> bx) ≠ 0 →
        vx % 64 + bx < 64 ∧ vy % 32 + ry < 32) :
    ∃ px1 vf1, execDraw w x y n = some { w with pixels := px1, vf := vf1 } ∧
      (∀ c r, (∀ ry, ry < n → ∀ bx, bx < 8 →
          mem (idx + ry) &&& (0x80 >>> bx) ≠ 0 →
          ¬(c = vx % 64 + bx ∧ r = vy % 32 + ry)) → px1 c r = px0 c r) ∧
      (∀ ry, ry < n → ∀ bx, bx < 8 →
        mem (idx + ry) &&& (0x80 >>> bx) ≠ 0 →
        px1 (vx % 64 + bx) (vy % 32 + ry) =
          px0 (vx % 64 + bx) (vy % 32 + ry) ^^^ 255) ∧
      ((∀ ry, ry < n → ∀ bx, bx < 8 →
          mem (idx + ry) &&& (0x80 >>> bx) ≠ 0 →
          px0 (vx % 64 + bx) (vy % 32 + ry) ≠ 255) → vf1 = 0) ∧
      (∀ ry, ry < n → ∀ bx, bx < 8 →
        mem (idx + ry) &&& (0x80 >>> bx) ≠ 0 →
        px0 (vx % 64 + bx) (vy % 32 + ry) = 255 → vf1 = 1) := by
  subst hmemf hidxf hpxf
  have hyc : vy % 32 < 32 := Nat.mod_lt _ (by norm_num)
  have hxc : vx % 64 < 64 := Nat.mod_lt _ (by norm_num)
  have hmodm : ∀ ry, ry < n → (w.index + ry) % 65536 = w.index + ry := by
    intro ry hry
    apply Nat.mod_eq_of_lt
    omega
  have hmodr : ∀ ry, ry < n → (vy % 32 + ry % 256) % 256 = vy % 32 + ry := by
    intro ry hry
    rw [Nat.mod_eq_of_lt (show ry < 256 by omega)]
    apply Nat.mod_eq_of_lt
    omega
  have hmodc : ∀ bx, bx < 8 → (vx % 64 + bx) % 256 = vx % 64 + bx := by
    intro bx hbx
    apply Nat.mod_eq_of_lt
    omega
  have hpwr : List.Pairwise
      (fun a b => (vy % 32 + a % 256) % 256 ≠ (vy % 32 + b % 256) % 256)
      (List.range n) := by
    refine (List.pairwise_lt_range n).imp_of_mem ?_
    intro a b ha hb hab
    rw [List.mem_range] at ha hb
    rw [hmodr a ha, hmodr b hb]
    omega
  have hmemr : ∀ ry ∈ List.range n, (w.index + ry) % 65536 < 4096 := by
    intro ry hm
    rw [List.mem_range] at hm
    rw [hmodm ry hm]
    omega
  have hbndr : ∀ ry ∈ List.range n, ∀ bx, bx < 8 →
      w.memory ((w.index + ry) % 65536) &&& (0x80 >>> bx) ≠ 0 →
      (vx % 64 + bx) % 256 < 64 ∧ (vy % 32 + ry % 256) % 256 < 32 := by
    intro ry hm bx hbx hb
    rw [List.mem_range] at hm
    rw [hmodm ry hm] at hb
    rw [hmodc bx hbx, hmodr ry hm]
    exact hbnd ry hm bx hbx hb
  obtain ⟨px1, vf1, hrun, ra, rb, rc, rd, _⟩ :=
    drawRowsLoop_run w.memory w.index (vx % 64) (vy % 32) (by omega)
      (List.range n) hpwr hmemr hbndr w.pixels 0
  refine ⟨px1, vf1, ?_, ?_, ?_, ?_, ?_⟩
  · simp only [execDraw,
      show regRead w.vars x = some vx by simp [regRead, hx, hvx],
      show regRead w.vars y = some vy by simp [regRead, hy, hvy],
      and_63_arith, and_31_arith, hrun]
  · intro c r hno
    apply ra c r
    intro ry hm bx hbx hb
    rw [List.mem_range] at hm
    rw [hmodm ry hm] at hb
    rw [hmodc bx hbx, hmodr ry hm]
    exact hno ry hm bx hbx hb
  · intro ry hry bx hbx hb
    have h0 := rb ry (List.mem_range.mpr hry) bx hbx
      (by rw [hmodm ry hry]; exact hb)
    rw [hmodc bx hbx, hmodr ry hry] at h0
    exact h0
  · intro hnc
    apply rc
    intro ry hm bx hbx hb
    rw [List.mem_range] at hm
    rw [hmodm ry hm] at hb
    rw [hmodc bx hbx, hmodr ry hm]
    exact hnc ry hm bx hbx hb
  · intro ry hry bx hbx hb hpx
    apply rd ry (List.mem_range.mpr hry) bx hbx
      (by rw [hmodm ry hry]; exact hb)
    rw [hmodc bx hbx, hmodr ry hry]
    exact hpx

/-- Fetching a `Dxyn` opcode (bytes `0xD0+x`, `16*y+n` at the PC) reduces
the cycle to the sprite-draw arm on the post-fetch state. -/
theorem executeCycle_dxyn (vm : VM) (rnd p x y n : Nat)
    (hpc : vm.pc = p) (hp : p + 1 < 4096)
    (hm0 : vm.memory p = 208 + x) (hx : x < 16)
    (hm1 : vm.memory (p + 1) = 16 * y + n) (hy : y < 16) (hn : n < 16) :
    executeCycle vm rnd =
      execDraw { vm with opcode := (208 + x) * 256 + (16 * y + n), pc := p + 2 }
        x y n := by
  subst hpc
  have hr1 : memRead vm.memory vm.pc = some (208 + x) := by
    simp [memRead, hm0]; omega
  have hmod : (vm.pc + 1) % 65536 = vm.pc + 1 := by omega
  have hr2 : memRead vm.memory ((vm.pc + 1) % 65536) = some (16 * y + n) := by
    rw [hmod]; simp [memRead, hm1]; omega
  have hw : ((208 + x) <<< 8) ||| (16 * y + n) = (208 + x) * 256 + (16 * y + n) := by
    rw [fetch_arith]; omega
  have hinstr : ((208 + x) * 256 + (16 * y + n)) &&& 0xF000 = 0xD000 := by
    rw [and_F000_arith]; omega
  have hdx : decodeX ((208 + x) * 256 + (16 * y + n)) = x := by
    rw [decodeX_arith]; omega
  have hdy : decodeY ((208 + x) * 256 + (16 * y + n)) = y := by
    rw [decodeY_arith]; omega
  have hnf : ((208 + x) * 256 + (16 * y + n)) &&& 0x000F = n := by
    rw [and_F_arith]; omega
  have hpc2 : (vm.pc + 2) % 65536 = vm.pc + 2 := by omega
  unfold executeCycle
  rw [hr1, hr2]
  simp only [hw, hinstr, hdx, hdy, hnf, hpc2]
  norm_num

/-- C4: executing the same `Dxyn` instruction twice in succession (the
opcode bytes sit at both `p` and `p+2`), with every set sprite bit landing
on the screen and the targeted pixels initially off, restores the pixel
buffer exactly (XOR involution), and the flag register — reset to 0 at the
start of each draw — is 0 after the first draw and 1 after the second
(every sprite bit now hits a lit pixel). -/
theorem draw_twice_restores_pixels (vm : VM) (rnd rnd2 p x y n vx vy : Nat)
    (hpc : vm.pc = p) (hp : p + 3 < 4096)
    (hm0 : vm.memory p = 208 + x) (hx : x < 16)
    (hm1 : vm.memory (p + 1) = 16 * y + n) (hy : y < 16) (hn : n < 16)
    (hm2 : vm.memory (p + 2) = 208 + x)
    (hm3 : vm.memory (p + 3) = 16 * y + n)
    (hvx : vm.vars x = vx) (hvy : vm.vars y = vy)
    (hidx : vm.index + n < 4096)
    (hbnd : ∀ ry, ry < n → ∀ bx, bx < 8 →
        vm.memory (vm.index + ry) &&& (0x80 >>> bx) ≠ 0 →
        vx % 64 + bx < 64 ∧ vy % 32 + ry < 32)
    (hoff : ∀ ry, ry < n → ∀ bx, bx < 8 →
        vm.memory (vm.index + ry) &&& (0x80 >>> bx) ≠ 0 →
        vm.pixels (vx % 64 + bx) (vy % 32 + ry) = 0)
    (hnz : ∃ ry, ry < n ∧ ∃ bx, bx < 8 ∧
        vm.memory (vm.index + ry) &&& (0x80 >>> bx) ≠ 0) :
    ∃ vm1 vm2, executeCycle vm rnd = some vm1 ∧ executeCycle vm1 rnd2 = some vm2 ∧
      vm1.vf = 0 ∧ vm2.vf = 1 ∧ vm2.pixels = vm.pixels ∧
      vm1.pc = p + 2 ∧ vm2.pc = p + 4 := by
  subst hpc
  obtain ⟨px1, vf1, hdraw1, a1, b1, c1, d1⟩ :=
    execDraw_char
      { vm with opcode := (208 + x) * 256 + (16 * y + n), pc := vm.pc + 2 }
      x y n vx vy vm.memory vm.index vm.pixels hx hy hn rfl rfl rfl hvx hvy
      hidx hbnd
  obtain ⟨px2, vf2, hdraw2, a2, b2, c2, d2⟩ :=
    execDraw_char
      { vm with
          opcode := (208 + x) * 256 + (16 * y + n)
          pc := vm.pc + 2 + 2
          pixels := px1
          vf := vf1 }
      x y n vx vy vm.memory vm.index px1 hx hy hn rfl rfl rfl hvx hvy
      hidx hbnd
  have hvf1 : vf1 = 0 := by
    apply c1
    intro ry hry bx hbx hb
    rw [hoff ry hry bx hbx hb]
    norm_num
  have hvf2 : vf2 = 1 := by
    obtain ⟨ry0, hry0, bx0, hbx0, hb0⟩ := hnz
    apply d2 ry0 hry0 bx0 hbx0 hb0
    rw [b1 ry0 hry0 bx0 hbx0 hb0, hoff ry0 hry0 bx0 hbx0 hb0]
    decide
  have hpx2 : px2 = vm.pixels := by
    funext c r
    by_cases hhit : ∀ ry, ry < n → ∀ bx, bx < 8 →
        vm.memory (vm.index + ry) &&& (0x80 >>> bx) ≠ 0 →
        ¬(c = vx % 64 + bx ∧ r = vy % 32 + ry)
    · rw [a2 c r hhit, a1 c r hhit]
    · push_neg at hhit
      obtain ⟨ry, hry, bx, hbx, hb, hc, hr⟩ := hhit
      subst hc
      subst hr
      rw [b2 ry hry bx hbx hb, b1 ry hry bx hbx hb, Nat.xor_assoc,
        Nat.xor_self, Nat.xor_zero]
  have hc1 : executeCycle vm rnd =
      some { vm with
              opcode := (208 + x) * 256 + (16 * y + n)
              pc := vm.pc + 2
              pixels := px1
              vf := vf1 } := by
    rw [executeCycle_dxyn vm rnd vm.pc x y n rfl (by omega) hm0 hx hm1 hy hn]
    exact hdraw1
  have hc2 : executeCycle
      { vm with
          opcode := (208 + x) * 256 + (16 * y + n)
          pc := vm.pc + 2
          pixels := px1
          vf := vf1 } rnd2 =
      some { vm with
              opcode := (208 + x) * 256 + (16 * y + n)
              pc := vm.pc + 2 + 2
              pixels := px2
              vf := vf2 } := by
    rw [executeCycle_dxyn
      { vm with
          opcode := (208 + x) * 256 + (16 * y + n)
          pc := vm.pc + 2
          pixels := px1
          vf := vf1 }
      rnd2 (vm.pc + 2) x y n rfl (by omega) hm2 hx hm3 hy hn]
    exact hdraw2
  refine ⟨_, _, hc1, hc2, hvf1, hvf2, hpx2, rfl, ?_⟩
  show vm.pc + 2 + 2 = vm.pc + 4
  omega

/-- State for the draw-twice witness: opcode `0xD011` stored at both `0x200`
and `0x202`, one-byte sprite `0x80` at `I = 0x300`, blank screen, and the
flag register deliberately starting at 1 (the draw must reset it). -/
def vmDrawTwice : VM :=
  { initVM with
      memory := fun i =>
        if i = 512 then 0xD0 else if i = 513 then 0x11 else
        if i = 514 then 0xD0 else if i = 515 then 0x11 else
        if i = 768 then 0x80 else 0
      index := 768
      vf := 1 }

/-- Witness for C4: drawing the one-pixel sprite at `(0, 0)` twice gives
flag 0 then flag 1 and returns the pixel buffer to its original state. -/
theorem draw_twice_restores_pixels_witness :
    ∃ vm1 vm2, executeCycle vmDrawTwice 0 = some vm1 ∧
      executeCycle vm1 0 = some vm2 ∧
      vm1.vf = 0 ∧ vm2.vf = 1 ∧ vm2.pixels = vmDrawTwice.pixels ∧
      vm1.pc = 512 + 2 ∧ vm2.pc = 512 + 4 :=
  draw_twice_restores_pixels vmDrawTwice 0 0 512 0 1 1 0 0 rfl (by decide)
    (by decide) (by decide) (by decide) (by decide) (by decide) (by decide)
    (by decide) rfl rfl (by decide) (by decide) (by decide)
    ⟨0, by decide, 0, by decide, by decide⟩

end Chip8
